import Mathlib

set_option maxRecDepth 10000

/-!
Verification development for the SARAS pressure-projection time-integration
kernel (`lib/timestep/eulerCN_d3.cc`) and the field-algebra layer it depends on
(`lib/field/field.cc`, `lib/field/sfield.cc`, `lib/field/plainvf.cc`,
`lib/io/tseries.h`).

Embedding conventions:
* A scalar array (`blitz::Array<real,3>`) is a total function from integer
  index triples to rationals; real arithmetic of the solver is modelled
  exactly over `ℚ` (the one exception is the `maxIterations` heuristic which
  uses `std::log` and is modelled over `ℝ`).
* The core (non-pad) index box of the local sub-domain is the closed box
  `[xSt, xEn] × [ySt, yEn] × [zSt, zEn]`; stencil loops `for iX = xSt..xEn`
  are folds over the explicit enumeration of this box.
* Collaborators that are out of scope of the five source files (the `der`
  derivative kernels, the `mpidata` halo transport, the boundary-condition
  objects, the forcing objects, the `spiral` LES model and the `multigrid`
  Poisson solver) enter as explicit function parameters; where a definition
  is reconstructed from the specification because its translation unit is
  not among the sources, its doc comment says so.
* The MPI world is a list of per-rank contexts; `MPI_Allreduce(..., MPI_MAX)`
  is a fold of `max` over the ranks.
-/

/-- A grid index `(iX, iY, iZ)`. -/
abbrev Pt : Type := ℤ × ℤ × ℤ

/-- A scalar array over the full (pads included) sub-domain box. -/
abbrev Fld : Type := Pt → ℚ

/-- Index shifted by +1 along x. -/
def px (p : Pt) : Pt := (p.1 + 1, p.2.1, p.2.2)

/-- Index shifted by -1 along x. -/
def mx (p : Pt) : Pt := (p.1 - 1, p.2.1, p.2.2)

/-- Index shifted by +1 along y. -/
def py (p : Pt) : Pt := (p.1, p.2.1 + 1, p.2.2)

/-- Index shifted by -1 along y. -/
def my (p : Pt) : Pt := (p.1, p.2.1 - 1, p.2.2)

/-- Index shifted by +1 along z. -/
def pz (p : Pt) : Pt := (p.1, p.2.1, p.2.2 + 1)

/-- Index shifted by -1 along z. -/
def mz (p : Pt) : Pt := (p.1, p.2.1, p.2.2 - 1)

/-- The grid data consumed by the time-step kernel: the bounds of the core
index box (`xSt..xEn` etc., the loop limits of the Jacobi sweeps) and the
stretched-coordinate metric arrays `xix2, xixx, ety2, etyy, ztz2, ztzz`
read from the `grid` collaborator. -/
structure Grid where
  xSt : ℤ
  xEn : ℤ
  ySt : ℤ
  yEn : ℤ
  zSt : ℤ
  zEn : ℤ
  xix2 : ℤ → ℚ
  xixx : ℤ → ℚ
  ety2 : ℤ → ℚ
  etyy : ℤ → ℚ
  ztz2 : ℤ → ℚ
  ztzz : ℤ → ℚ

/-- Membership in the core index box of the sub-domain. -/
def inCore (g : Grid) (p : Pt) : Prop :=
  g.xSt ≤ p.1 ∧ p.1 ≤ g.xEn ∧ g.ySt ≤ p.2.1 ∧ p.2.1 ≤ g.yEn ∧
    g.zSt ≤ p.2.2 ∧ p.2.2 ≤ g.zEn

instance (g : Grid) (p : Pt) : Decidable (inCore g p) :=
  And.decidable

/-- Enumeration of the integers from `a` to `b` inclusive. -/
def zRange (a b : ℤ) : List ℤ :=
  (List.range (b + 1 - a).toNat).map (fun n : ℕ => a + (n : ℤ))

/-- Enumeration of the core index box, in loop order (iX outer, iZ inner). -/
def coreList (g : Grid) : List Pt :=
  (zRange g.xSt g.xEn).flatMap fun i =>
    (zRange g.ySt g.yEn).flatMap fun j =>
      (zRange g.zSt g.zEn).map fun k => (i, j, k)

/-- The precomputed stencil coefficients of the `timestep` object
(`i2hx = 0.5/dXi`, `ihx2 = 1/dXi²`, and the y/z analogues). -/
structure Coeffs where
  i2hx : ℚ
  i2hy : ℚ
  i2hz : ℚ
  ihx2 : ℚ
  ihy2 : ℚ
  ihz2 : ℚ

/-- Embedding of `eulerCN_d3::setCoefficients` (eulerCN_d3.cc:571):
`i2hx = 0.5/dXi`, `ihx2 = 1/hx2` with `hx2 = dXi²`, and the y/z analogues. -/
def setCoefficients (dXi dEt dZt : ℚ) : Coeffs :=
  ⟨0.5 / dXi, 0.5 / dEt, 0.5 / dZt, 1 / dXi ^ 2, 1 / dEt ^ 2, 1 / dZt ^ 2⟩

/-- The metric-weighted neighbour sum appearing in the numerator of each
Jacobi sweep (the parenthesised sum of six terms in the first loop of
`eulerCN_d3::solveVx`, eulerCN_d3.cc:300-305, and its Vy/Vz/T copies). -/
def nborSumCode (g : Grid) (c : Coeffs) (phi : Fld) (p : Pt) : ℚ :=
  c.ihx2 * g.xix2 p.1 * (phi (px p) + phi (mx p)) +
    c.i2hx * g.xixx p.1 * (phi (px p) - phi (mx p)) +
    c.ihy2 * g.ety2 p.2.1 * (phi (py p) + phi (my p)) +
    c.i2hy * g.etyy p.2.1 * (phi (py p) - phi (my p)) +
    c.ihz2 * g.ztz2 p.2.2 * (phi (pz p) + phi (mz p)) +
    c.i2hz * g.ztzz p.2.2 * (phi (pz p) - phi (mz p))

/-- The diagonal metric sum in the denominator of each Jacobi sweep
(`ihx2*xix2 + ihy2*ety2 + ihz2*ztz2`, eulerCN_d3.cc:307). -/
def diagTerm (g : Grid) (c : Coeffs) (p : Pt) : ℚ :=
  c.ihx2 * g.xix2 p.1 + c.ihy2 * g.ety2 p.2.1 + c.ihz2 * g.ztz2 p.2.2

/-- The candidate value computed for one core cell by the first loop of a
Jacobi sweep (eulerCN_d3.cc:300-307), transcribed verbatim:
`((neighbour sum) * dt * alpha / 2 + rhs) / (1 + dt * alpha * diag)`. -/
def jacobiCandidate (g : Grid) (c : Coeffs) (alpha dt : ℚ)
    (phi rhs : Fld) (p : Pt) : ℚ :=
  (nborSumCode g c phi p * dt * alpha / 2 + rhs p) /
    (1 + dt * alpha * diagTerm g c p)

/-- The split-form discrete Laplacian exactly as written in the residual loop
of each Jacobi solve (eulerCN_d3.cc:321-326):
`xix2 (f₊ − 2f + f₋) ihx2 + xixx (f₊ − f₋) i2hx + (y terms) + (z terms)`. -/
def lapCode (g : Grid) (c : Coeffs) (phi : Fld) (p : Pt) : ℚ :=
  g.xix2 p.1 * (phi (px p) - 2 * phi p + phi (mx p)) * c.ihx2 +
    g.xixx p.1 * (phi (px p) - phi (mx p)) * c.i2hx +
    g.ety2 p.2.1 * (phi (py p) - 2 * phi p + phi (my p)) * c.ihy2 +
    g.etyy p.2.1 * (phi (py p) - phi (my p)) * c.i2hy +
    g.ztz2 p.2.2 * (phi (pz p) - 2 * phi p + phi (mz p)) * c.ihz2 +
    g.ztzz p.2.2 * (phi (pz p) - phi (mz p)) * c.i2hz

/-- The value written into the scratch array by the residual loop of a Jacobi
solve before the rhs is subtracted (eulerCN_d3.cc:320-326):
`phi − 0.5 * dt * alpha * (split-form Laplacian)`. -/
def residCode (g : Grid) (c : Coeffs) (alpha dt : ℚ) (phi : Fld) (p : Pt) : ℚ :=
  phi p - 0.5 * dt * alpha * lapCode g c phi p

/-- Written from the specification (§4.4): the metric-weighted neighbour-sum
part `S` of the discrete Laplacian, i.e. the Laplacian with its `−2·phi`
centre term removed.  The centre term of `lapCode` is
`−2·phi·(xix2·ihx2 + ety2·ihy2 + ztz2·ihz2)`, so removing it adds that
quantity back. -/
def specNeighborSum (g : Grid) (c : Coeffs) (phi : Fld) (p : Pt) : ℚ :=
  lapCode g c phi p +
    2 * phi p *
      (g.xix2 p.1 * c.ihx2 + g.ety2 p.2.1 * c.ihy2 + g.ztz2 p.2.2 * c.ihz2)

/-- Written from the specification (§4.4, step 1): the candidate
`phi* = (S·(α dt/2) + rhs) / (1 + α dt (xix2·ihx2 + ety2·ihy2 + ztz2·ihz2))`. -/
def specCandidate (g : Grid) (c : Coeffs) (alpha dt : ℚ)
    (phi rhs : Fld) (p : Pt) : ℚ :=
  (specNeighborSum g c phi p * (alpha * dt / 2) + rhs p) /
    (1 + alpha * dt *
      (g.xix2 p.1 * c.ihx2 + g.ety2 p.2.1 * c.ihy2 + g.ztz2 p.2.2 * c.ihz2))

/-- Written from the specification (§4.4, step 4): the per-cell residual
`r = phi − (α dt / 2)·L(phi) − rhs`. -/
def specResidual (g : Grid) (c : Coeffs) (alpha dt : ℚ)
    (phi rhs : Fld) (p : Pt) : ℚ :=
  phi p - alpha * dt / 2 * lapCode g c phi p - rhs p

/-- The absolute value as computed by `blitz::abs` / `std::abs`, written as
an executable conditional (equal to `|x|`, see `qAbs_eq_abs` below). -/
def qAbs (x : ℚ) : ℚ := if x < 0 then -x else x

/-- Per-rank context of one Jacobi solve: the local grid and coefficients,
this process's MPI rank, the boundary-condition imposition for the solved
component (`imposeVxBC` / `imposeVyBC` / `imposeVzBC` / `T.imposeBCs`), and
the local right-hand-side array. -/
structure RankCtx where
  g : Grid
  c : Coeffs
  rank : ℕ
  bc : Fld → Fld
  rhs : Fld

/-- Mutable per-rank state of one Jacobi solve: the solved component's array
and the function-static scratch array (`tempVx` etc.), which persists across
iterations and whose non-core cells are never written by the loops. -/
structure SweepSt where
  phi : Fld
  temp : Fld

/-- The array obtained by the whole-array assignment `V.Vx.F = tempVx`
after the first loop of a sweep: core cells hold the Jacobi candidate, all
other cells hold whatever the scratch array held before. -/
def sweepCopy (R : RankCtx) (alpha dt : ℚ) (s : SweepSt) : Fld :=
  fun p =>
    if inCore R.g p then jacobiCandidate R.g R.c alpha dt s.phi R.rhs p
    else s.temp p

/-- One full Jacobi sweep (the body of the `while (true)` loop of
`eulerCN_d3::solveVx`, eulerCN_d3.cc:295-333, and its Vy/Vz/T copies):
candidate loop into the scratch array, whole-array copy into the field,
boundary-condition imposition, residual loop into the scratch array core,
and the `abs(temp - rhs)` update of the scratch array core. -/
def jacobiSweep (R : RankCtx) (alpha dt : ℚ) (s : SweepSt) : SweepSt :=
  let phi1 := sweepCopy R alpha dt s
  let phi2 := R.bc phi1
  let t2 : Fld := fun p =>
    if inCore R.g p then qAbs (residCode R.g R.c alpha dt phi2 p - R.rhs p)
    else phi1 p
  ⟨phi2, t2⟩

/-- The local residual maximum `blitz::max(temp(core))` of one rank after a
sweep (the scratch core holds the absolute residuals at that point). -/
def locMax (R : RankCtx) (s : SweepSt) : ℚ :=
  (coreList R.g).foldr (fun p m => max (s.temp p) m) 0

/-- The MPI world of one Jacobi solve: each rank's context and sweep state. -/
abbrev World : Type := List (RankCtx × SweepSt)

/-- One collective sweep: every rank runs its local sweep. -/
def sweepWorld (alpha dt : ℚ) (W : World) : World :=
  W.map fun Rs => (Rs.1, jacobiSweep Rs.1 alpha dt Rs.2)

/-- The globally reduced residual maximum
(`MPI_Allreduce(&locMax, &gloMax, 1, MPI_FP_REAL, MPI_MAX, ...)`). -/
def gloMax (W : World) : ℚ :=
  W.foldr (fun Rs m => max (locMax Rs.1 Rs.2) m) 0

/-- The ranks present in a world. -/
def ranksOf (W : World) : List ℕ := W.map fun Rs => Rs.1.rank

/-- The error message printed by rank 0 on convergence failure
(eulerCN_d3.cc:342 and its Vy/Vz/T copies). -/
def jacobiErrMsg (name : String) : String :=
  "ERROR: Jacobi iterations for solution of " ++ name ++
    " not converging. Aborting"

/-- The observable outcome of the convergence-failure branch: the lines
printed (one per process whose rank is 0) and the process exit status
(`MPI_Finalize(); exit(0)`, eulerCN_d3.cc:344-345). -/
structure JacobiAbort where
  messages : List String
  exitCode : ℕ
deriving DecidableEq

/-- The abort outcome produced when the iteration cap is exceeded: each rank
tests `rank == 0` before printing, then all call `exit(0)`. -/
def abortOf (name : String) (W : World) : JacobiAbort :=
  ⟨((ranksOf W).filter fun r => r == 0).map fun _ => jacobiErrMsg name, 0⟩

/-- The Jacobi iteration loop of `eulerCN_d3::solveVx` (eulerCN_d3.cc:295-347)
and its Vy/Vz/T copies, run over the whole MPI world.  `fuel` is the number
of additional failed residual checks the loop tolerates before aborting; the
source aborts when `iterCount`, incremented after each failed check, first
exceeds `maxIterations`, so a solve corresponds to `fuel = maxIterations`.
The second component counts the sweeps executed. -/
def jacobiRun (alpha dt tol : ℚ) (name : String) :
    ℕ → World → ℕ → Except JacobiAbort World × ℕ
  | 0, W, count =>
    let W2 := sweepWorld alpha dt W
    if gloMax W2 < tol then (Except.ok W2, count + 1)
    else (Except.error (abortOf name W2), count + 1)
  | n + 1, W, count =>
    let W2 := sweepWorld alpha dt W
    if gloMax W2 < tol then (Except.ok W2, count + 1)
    else jacobiRun alpha dt tol name n W2 (count + 1)

/-- Iterated collective sweeps. -/
def iterWorld (alpha dt : ℚ) : ℕ → World → World
  | 0, W => W
  | n + 1, W => iterWorld alpha dt n (sweepWorld alpha dt W)

/-- Whether a solve outcome is a normal exit. -/
def runIsOk (x : Except JacobiAbort World) : Bool :=
  match x with
  | Except.ok _ => true
  | Except.error _ => false

/-- The messages printed by a solve outcome. -/
def runMessages (x : Except JacobiAbort World) : List String :=
  match x with
  | Except.ok _ => []
  | Except.error e => e.messages

/-- The exit status of a solve outcome (`some 0` on abort). -/
def runExitCode (x : Except JacobiAbort World) : Option ℕ :=
  match x with
  | Except.ok _ => none
  | Except.error e => some e.exitCode

/-- The reduced residual maximum of a normal exit (0 on abort, unused). -/
def okGloMax (x : Except JacobiAbort World) : ℚ :=
  match x with
  | Except.ok W => gloMax W
  | Except.error _ => 0

/-- One component solve on a single-process world: builds the one-rank world
from the local data, runs the Jacobi loop, and on normal exit returns the
solved array together with the updated scratch array. -/
def solveComp (g : Grid) (c : Coeffs) (bc : Fld → Fld) (alpha dt tol : ℚ)
    (name : String) (fuel : ℕ) (phi temp rhs : Fld) :
    Except JacobiAbort (Fld × Fld) :=
  match (jacobiRun alpha dt tol name fuel [(⟨g, c, 0, bc, rhs⟩, ⟨phi, temp⟩)] 0).1 with
  | Except.ok W =>
    match W with
    | (_, s) :: _ => Except.ok (s.phi, s.temp)
    | [] => Except.ok (phi, temp)
  | Except.error e => Except.error e

/-- `eulerCN_d3::solveVx` (eulerCN_d3.cc:289): diffusion coefficient `nu`,
boundary imposition `imposeVxBC`. -/
def solveVx (g : Grid) (c : Coeffs) (bc : Fld → Fld) (nu dt tol : ℚ)
    (fuel : ℕ) (phi temp rhs : Fld) : Except JacobiAbort (Fld × Fld) :=
  solveComp g c bc nu dt tol ("Vx") fuel phi temp rhs

/-- `eulerCN_d3::solveVy` (eulerCN_d3.cc:364). -/
def solveVy (g : Grid) (c : Coeffs) (bc : Fld → Fld) (nu dt tol : ℚ)
    (fuel : ℕ) (phi temp rhs : Fld) : Except JacobiAbort (Fld × Fld) :=
  solveComp g c bc nu dt tol ("Vy") fuel phi temp rhs

/-- `eulerCN_d3::solveVz` (eulerCN_d3.cc:439). -/
def solveVz (g : Grid) (c : Coeffs) (bc : Fld → Fld) (nu dt tol : ℚ)
    (fuel : ℕ) (phi temp rhs : Fld) : Except JacobiAbort (Fld × Fld) :=
  solveComp g c bc nu dt tol ("Vz") fuel phi temp rhs

/-- `eulerCN_d3::solveT` (eulerCN_d3.cc:501): diffusion coefficient `kappa`,
boundary imposition `T.imposeBCs()`. -/
def solveT (g : Grid) (c : Coeffs) (bc : Fld → Fld) (kappa dt tol : ℚ)
    (fuel : ℕ) (phi temp rhs : Fld) : Except JacobiAbort (Fld × Fld) :=
  solveComp g c bc kappa dt tol ("T") fuel phi temp rhs

/-- The derivative kernels of one `der` collaborator object (`calcDerivative1_x`
etc.); the `der` class is outside the five source files, so its kernels are
abstract here.  `d1x F` is the array written into `derivTemp` by
`calcDerivative1_x` when the object wraps `F`. -/
structure DerOps where
  d1x : Fld → Fld
  d1y : Fld → Fld
  d1z : Fld → Fld
  d2xx : Fld → Fld
  d2yy : Fld → Fld
  d2zz : Fld → Fld

/-- The three staggered component arrays of a vector field (`vfield` data) or
of a plain vector field (`plainvf` data). -/
structure VecF where
  Vx : Fld
  Vy : Fld
  Vz : Fld

/-- `plainvf::operator*=(real)` (plainvf.cc:194): every cell of every
component is multiplied by the scalar. -/
def pvfScale (a : ℚ) (v : VecF) : VecF :=
  ⟨fun p => v.Vx p * a, fun p => v.Vy p * a, fun p => v.Vz p * a⟩

/-- `plainvf::operator+=(vfield&)` (plainvf.cc:152): whole-array addition of
the vector field's component arrays. -/
def pvfAdd (v a : VecF) : VecF :=
  ⟨fun p => v.Vx p + a.Vx p, fun p => v.Vy p + a.Vy p, fun p => v.Vz p + a.Vz p⟩

/-- `plainvf::operator-=(plainvf&)` (plainvf.cc:131) and
`vfield -= plainvf`: whole-array subtraction, componentwise. -/
def pvfSub (v a : VecF) : VecF :=
  ⟨fun p => v.Vx p - a.Vx p, fun p => v.Vy p - a.Vy p, fun p => v.Vz p - a.Vz p⟩

/-- The all-zero plain vector field (`nseRHS = 0.0`, `pressureGradient = 0.0`). -/
def pvfZero : VecF := ⟨fun _ => 0, fun _ => 0, fun _ => 0⟩

/-- `sfield::computeDiff` (sfield.cc:82): for each of the three axes the
derivative kernel writes into the scratch array and the scratch core is
added to the core of the output `H`; only core cells of `H` are written. -/
def sfComputeDiff (g : Grid) (D : DerOps) (F H : Fld) : Fld :=
  fun p =>
    if inCore g p then H p + D.d2xx F p + D.d2yy F p + D.d2zz F p
    else H p

/-- `sfield::computeNLin` (sfield.cc:109): the convective term
`(u·∇)F` is subtracted from the core of the output `H`, using the velocity
components read at the same core cells; only core cells of `H` are written. -/
def sfComputeNLin (g : Grid) (D : DerOps) (F : Fld) (V : VecF) (H : Fld) : Fld :=
  fun p =>
    if inCore g p then
      H p - V.Vx p * D.d1x F p - V.Vy p * D.d1y F p - V.Vz p * D.d1z F p
    else H p

/-- `sfield::gradient` (sfield.cc:135): the three first derivatives of `F` are
assigned (not accumulated) into the cores of the output components; only core
cells of the output are written. -/
def sfGradient (g : Grid) (D : DerOps) (F : Fld) (gradF : VecF) : VecF :=
  ⟨fun p => if inCore g p then D.d1x F p else gradF.Vx p,
   fun p => if inCore g p then D.d1y F p else gradF.Vy p,
   fun p => if inCore g p then D.d1z F p else gradF.Vz p⟩

/-- The BC-application events observable in `sfield::imposeBCs`. -/
inductive BCEvent
  | sync
  | lft
  | rgt
  | frn
  | bak
  | top
  | bot
deriving DecidableEq

/-- The collaborators of `sfield::imposeBCs`: the halo exchange
(`field::syncData`, via the `mpidata` collaborator) and the six wall
boundary-condition objects `tLft .. tBot` (collaterals of the `boundary`
class hierarchy, outside the source files). -/
structure SfieldBCs where
  syncF : Fld → Fld
  bcLft : Fld → Fld
  bcRgt : Fld → Fld
  bcFrn : Fld → Fld
  bcBak : Fld → Fld
  bcTop : Fld → Fld
  bcBot : Fld → Fld

/-- `sfield::imposeBCs` (sfield.cc:171), non-planar build: first `syncData`,
then left/right only when x is not periodic, front/back only when y is not
periodic, and top/bottom unconditionally.  `zPer` is available in
`inputParams` but never consulted.  The result pairs the updated array with
the trace of calls, in order. -/
def sfImposeBCs (xPer yPer zPer : Bool) (B : SfieldBCs) (f : Fld) :
    Fld × List BCEvent :=
  let f1 := B.syncF f
  let f2 := if xPer then f1 else B.bcRgt (B.bcLft f1)
  let e2 : List BCEvent := if xPer then [] else [BCEvent.lft, BCEvent.rgt]
  let f3 := if yPer then f2 else B.bcBak (B.bcFrn f2)
  let e3 : List BCEvent := if yPer then [] else [BCEvent.frn, BCEvent.bak]
  let f4 := B.bcBot (B.bcTop f3)
  (f4, BCEvent.sync :: (e2 ++ e3 ++ [BCEvent.top, BCEvent.bot]))

/-- `field::fieldMax`, local part (field.cc:180): `blitz::max(blitz::abs(F))`
over the full local array, folded over an explicit enumeration `dom` of that
array's index box.  The seed 0 is exact because the folded values are
absolute values. -/
def fieldMaxLocal (dom : List Pt) (f : Fld) : ℚ :=
  dom.foldr (fun p m => max (qAbs (f p)) m) 0

/-- `field::fieldMax`, global part (field.cc:189): the `MPI_Allreduce` of the
local maxima with `MPI_MAX`, over the list of per-rank (index box, array)
pairs. -/
def fieldMax (ranks : List (List Pt × Fld)) : ℚ :=
  ranks.foldr (fun r m => max (fieldMaxLocal r.1 r.2) m) 0

/-- Scaling the distributed field by `a` (`field::operator*=` semantics):
every rank's local array is multiplied cellwise. -/
def fieldScale (a : ℚ) (ranks : List (List Pt × Fld)) : List (List Pt × Fld) :=
  ranks.map fun r => (r.1, fun p => a * r.2 p)

/-- The observable shape of one LES `computeSG` invocation: not called,
called with the momentum signature `computeSG(nseRHS, V)`, or called with
the scalar-aware signature `computeSG(nseRHS, tmpRHS, V, T)`. -/
inductive LESCall
  | none
  | mom (rhs : VecF) (V : VecF)
  | scal (rhs : VecF) (tmp : Fld) (V : VecF) (T : Fld)

/-- The LES block of the hydrodynamic `timeAdvance` (eulerCN_d3.cc:109-112):
when `lesModel` is non-zero and `solTime > 5*tStp`, `computeSG(nseRHS, V)`
runs (updating `nseRHS` and returning the sub-grid energy, which is stored
into `tsWriter.subgridEnergy`); otherwise nothing happens.  Returns the
updated rhs, the value of `tsWriter.subgridEnergy` after the block, and the
call descriptor. -/
def lesStepHydro (lesModel : ℕ) (solTime tStp : ℚ)
    (computeSG : VecF → VecF → VecF × ℚ) (nseRHS : VecF) (V : VecF)
    (subE : ℚ) : VecF × ℚ × LESCall :=
  if lesModel ≠ 0 ∧ 5 * tStp < solTime then
    let r := computeSG nseRHS V
    (r.1, r.2, LESCall.mom nseRHS V)
  else (nseRHS, subE, LESCall.none)

/-- Result of the LES block of the scalar `timeAdvance`. -/
structure ScalarLESOut where
  rhs : VecF
  tmp : Fld
  energy : ℚ
  call : LESCall

/-- The LES block of the scalar-variant `timeAdvance` (eulerCN_d3.cc:211-220):
under the same guard, `subgridKE` is zeroed, then `computeSG(nseRHS, V)` runs
when `lesModel == 1`, `computeSG(nseRHS, tmpRHS, V, T)` when `lesModel == 2`
(and nothing when `lesModel` is any other non-zero value), and
`tsWriter.subgridEnergy` is assigned the resulting `subgridKE`. -/
def lesStepScalar (lesModel : ℕ) (solTime tStp : ℚ)
    (computeSG1 : VecF → VecF → VecF × ℚ)
    (computeSG2 : VecF → Fld → VecF → Fld → VecF × Fld × ℚ)
    (nseRHS : VecF) (tmpRHS : Fld) (V : VecF) (T : Fld) (subE : ℚ) :
    ScalarLESOut :=
  if lesModel ≠ 0 ∧ 5 * tStp < solTime then
    if lesModel = 1 then
      let r := computeSG1 nseRHS V
      ⟨r.1, tmpRHS, r.2, LESCall.mom nseRHS V⟩
    else if lesModel = 2 then
      let r := computeSG2 nseRHS tmpRHS V T
      ⟨r.1, r.2.1, r.2.2, LESCall.scal nseRHS tmpRHS V T⟩
    else ⟨nseRHS, tmpRHS, 0, LESCall.none⟩
  else ⟨nseRHS, tmpRHS, subE, LESCall.none⟩

/-- The input parameters and derived members of the `eulerCN_d3` object used
by `timeAdvance`: step size `dt`, diffusivities, the Jacobi tolerance
`cnTolerance`, the iteration cap `maxIterations`, the LES switch, the
current solution time and nominal step, and the periodicity flags. -/
structure Params where
  dt : ℚ
  nu : ℚ
  kappa : ℚ
  cnTolerance : ℚ
  maxIterations : ℕ
  lesModel : ℕ
  solTime : ℚ
  tStp : ℚ
  xPer : Bool
  yPer : Bool
  zPer : Bool

/-- The collaborators reached from the hydrodynamic `timeAdvance`: the `der`
objects of the three velocity components and of the two pressure fields, the
velocity forcing, the LES model, the halo exchanges, the per-component
velocity BC impositions, the whole-vector `V.imposeBCs`, the pressure
field's wall BC objects, and the multigrid solve. -/
structure Collab where
  derVx : DerOps
  derVy : DerOps
  derVz : DerOps
  derP : DerOps
  derPp : DerOps
  addForcing : VecF → VecF → VecF
  computeSG : VecF → VecF → VecF × ℚ
  syncVF : VecF → VecF
  syncPp : Fld → Fld
  bcVx : Fld → Fld
  bcVy : Fld → Fld
  bcVz : Fld → Fld
  imposeVBCs : VecF → VecF
  pBC : SfieldBCs
  mgSolve : Fld → Fld

/-- Modelled from the spec (§4.2 and §3): `vfield::computeDiff` — the vfield
translation unit is not among the sources; following the scalar version
(sfield.cc:82) and the specification, each component accumulates its three
second-derivative terms on its core. -/
def vfComputeDiff (g : Grid) (Dx Dy Dz : DerOps) (V H : VecF) : VecF :=
  ⟨sfComputeDiff g Dx V.Vx H.Vx,
   sfComputeDiff g Dy V.Vy H.Vy,
   sfComputeDiff g Dz V.Vz H.Vz⟩

/-- Modelled from the spec (§4.2 Advection): `vfield::computeNLin` — the
vfield translation unit is not among the sources; following the scalar
version (sfield.cc:109), each component of `H` has `(V·∇)Uᵢ` subtracted on
its core. -/
def vfComputeNLin (g : Grid) (Dx Dy Dz : DerOps) (U V : VecF) (H : VecF) : VecF :=
  ⟨sfComputeNLin g Dx U.Vx V H.Vx,
   sfComputeNLin g Dy U.Vy V H.Vy,
   sfComputeNLin g Dz U.Vz V H.Vz⟩

/-- Modelled from the spec (§4.2 Divergence): `vfield::divergence` — the
vfield translation unit is not among the sources; the divergence
`∂Vx/∂x + ∂Vy/∂y + ∂Vz/∂z` is assigned into the core of the cell-centred
output, whose non-core cells keep their previous values. -/
def vfDivergence (g : Grid) (Dx Dy Dz : DerOps) (V : VecF) (out : Fld) : Fld :=
  fun p =>
    if inCore g p then Dx.d1x V.Vx p + Dy.d1y V.Vy p + Dz.d1z V.Vz p
    else out p

/-- The per-step mutable state reached from the hydrodynamic `timeAdvance`:
the solution fields `V` and `P`, the scratch members `Pp`, `mgRHS` and
`pressureGradient` of the `timestep` object, the function-static scratch
arrays of the three solves, and `tsWriter.subgridEnergy`. -/
structure TSState where
  V : VecF
  P : Fld
  Pp : Fld
  mgRHS : Fld
  pressureGradient : VecF
  tempVx : Fld
  tempVy : Fld
  tempVz : Fld
  subgridEnergy : ℚ

/-- Stage `pressureGradient = 0.0; P.gradient(pressureGradient)` of
`timeAdvance` (eulerCN_d3.cc:115-116). -/
def hydroPressureGrad (g : Grid) (C : Collab) (st : TSState) : VecF :=
  sfGradient g C.derP st.P pvfZero

/-- Stages 1-8 of the hydrodynamic `timeAdvance` (eulerCN_d3.cc:95-124):
clear `nseRHS`, accumulate diffusion scaled by `nu/2`, subtract advection,
add forcing, run the LES block, subtract the pressure gradient, multiply by
`dt`, add `V`, and halo-sync.  Returns the synced rhs together with the
value of `tsWriter.subgridEnergy` after the LES block. -/
def hydroRHS (g : Grid) (prm : Params) (C : Collab) (st : TSState) :
    VecF × ℚ :=
  let r1 := vfComputeDiff g C.derVx C.derVy C.derVz st.V pvfZero
  let r2 := pvfScale (prm.nu / 2) r1
  let r3 := vfComputeNLin g C.derVx C.derVy C.derVz st.V st.V r2
  let r4 := C.addForcing st.V r3
  let les := lesStepHydro prm.lesModel prm.solTime prm.tStp C.computeSG r4
    st.V st.subgridEnergy
  let r6 := pvfSub les.1 (hydroPressureGrad g C st)
  let r7 := pvfScale prm.dt r6
  let r8 := pvfAdd r7 st.V
  (C.syncVF r8, les.2.1)

/-- Stages 10-13 of the hydrodynamic `timeAdvance` (eulerCN_d3.cc:131-166),
after the three implicit solves produced the predictor `V1`: divergence of
`V1` into `mgRHS`, scaling by `1/dt`, the multigrid solve and halo sync of
`Pp`, the pressure update `P += Pp`, the projection
`V -= dt * grad(Pp)` (the gradient overwrites the core of the
`pressureGradient` scratch, whose non-core cells keep the values left by the
earlier `P.gradient` call), and the final BC impositions on `V` and `P`. -/
def hydroFinish (g : Grid) (prm : Params) (C : Collab) (st : TSState)
    (V1 : VecF) (tVx tVy tVz : Fld) (ke : ℚ) : TSState :=
  let mg1 := vfDivergence g C.derVx C.derVy C.derVz V1 st.mgRHS
  let mg2 : Fld := fun p => mg1 p * (1 / prm.dt)
  let pp2 := C.syncPp (C.mgSolve mg2)
  let p1 : Fld := fun p => st.P p + pp2 p
  let pg2 := sfGradient g C.derPp pp2 (hydroPressureGrad g C st)
  let pg3 := pvfScale prm.dt pg2
  let V2 := pvfSub V1 pg3
  let V3 := C.imposeVBCs V2
  let p2 := (sfImposeBCs prm.xPer prm.yPer prm.zPer C.pBC p1).1
  ⟨V3, p2, pp2, mg2, pg3, tVx, tVy, tVz, ke⟩

/-- `eulerCN_d3::timeAdvance(V, P)` (eulerCN_d3.cc:91-167), the hydrodynamic
variant, for a single-process run: assemble the explicit right-hand side,
solve the three implicit component equations by Jacobi iteration (each may
abort on convergence failure), then form the Poisson problem, correct the
pressure, project the velocity, and impose the final boundary conditions. -/
def timeAdvanceHydro (g : Grid) (c : Coeffs) (prm : Params) (C : Collab)
    (st : TSState) : Except JacobiAbort TSState :=
  let rhs := hydroRHS g prm C st
  match solveVx g c C.bcVx prm.nu prm.dt prm.cnTolerance prm.maxIterations
      st.V.Vx st.tempVx rhs.1.Vx with
  | Except.error e => Except.error e
  | Except.ok ux =>
  match solveVy g c C.bcVy prm.nu prm.dt prm.cnTolerance prm.maxIterations
      st.V.Vy st.tempVy rhs.1.Vy with
  | Except.error e => Except.error e
  | Except.ok uy =>
  match solveVz g c C.bcVz prm.nu prm.dt prm.cnTolerance prm.maxIterations
      st.V.Vz st.tempVz rhs.1.Vz with
  | Except.error e => Except.error e
  | Except.ok uz =>
    Except.ok (hydroFinish g prm C st ⟨ux.1, uy.1, uz.1⟩ ux.2 uy.2 uz.2 rhs.2)

/-- The `int()` conversion applied by the constructor to the iteration-cap
expression: C++ float-to-int conversion truncates toward zero. -/
noncomputable def intTrunc (x : ℝ) : ℤ := if 0 ≤ x then ⌊x⌋ else ⌈x⌉

/-- Embedding of the `maxIterations` assignment of the `eulerCN_d3`
constructor (eulerCN_d3.cc:68):
`maxIterations = int(std::pow(std::log(coreSize(0)*coreSize(1)*coreSize(2)), 3))`,
with the transcendental arithmetic taken over exact reals. -/
noncomputable def maxIterationsOf (Nx Ny Nz : ℕ) : ℤ :=
  intTrunc (Real.log ((Nx * Ny * Nz : ℕ) : ℝ) ^ 3)

/-- Modelled from the spec (§4.2): uniform-grid central-difference kernels
(stretching factor 1, unit computational spacing), used to instantiate the
abstract `der` collaborator in the concrete scenarios below. -/
def uniDer : DerOps :=
  ⟨fun f p => (f (px p) - f (mx p)) * 0.5,
   fun f p => (f (py p) - f (my p)) * 0.5,
   fun f p => (f (pz p) - f (mz p)) * 0.5,
   fun f p => f (px p) - 2 * f p + f (mx p),
   fun f p => f (py p) - 2 * f p + f (my p),
   fun f p => f (pz p) - 2 * f p + f (mz p)⟩

/-- Concrete single-process grid: core box `{1} × {1} × {1}`, full box
`[0,2]³` (pad width 1), uniform unit metrics (`xix2 = 1`, `xixx = 0`, and
the y/z analogues). -/
def gridW : Grid :=
  ⟨1, 1, 1, 1, 1, 1, fun _ => 1, fun _ => 0, fun _ => 1, fun _ => 0,
   fun _ => 1, fun _ => 0⟩

/-- Coefficients of `setCoefficients` for unit computational spacings. -/
def coeffsW : Coeffs := setCoefficients 1 1 1

/-- Concrete rank context on `gridW`: rank 0, identity boundary imposition,
zero right-hand side. -/
def rankW : RankCtx := ⟨gridW, coeffsW, 0, id, fun _ => 0⟩

/-- Concrete sweep state: zero field and zero scratch array. -/
def stateW : SweepSt := ⟨fun _ => 0, fun _ => 0⟩

/-- Concrete single-process world. -/
def worldW : World := [(rankW, stateW)]

/-- Dirichlet boundary imposition writing the value `v` on the top wall
slice (`iZ = 2` on `gridW`, one cell above the core). -/
def topDirichlet (v : ℚ) : Fld → Fld :=
  fun f p => if p.2.2 = 2 then v else f p

/-- Neumann (mirror) boundary objects for the pressure field on `gridW`:
each wall cell copies the adjacent interior cell; the halo exchange is the
identity (single process, no periodic neighbour). -/
def mirrorBCs : SfieldBCs :=
  ⟨id,
   fun f p => if p.1 = 0 then f (px p) else f p,
   fun f p => if p.1 = 2 then f (mx p) else f p,
   fun f p => if p.2.1 = 0 then f (py p) else f p,
   fun f p => if p.2.1 = 2 then f (my p) else f p,
   fun f p => if p.2.2 = 2 then f (mz p) else f p,
   fun f p => if p.2.2 = 0 then f (pz p) else f p⟩

/-- Concrete lid-driven-cavity-style parameters with `dt = 0`:
unit diffusivities, tolerance 1/100, `maxIterations = 0` (consistent with
the constructor formula, since the core has one cell and `log 1 = 0`),
LES off, all axes non-periodic. -/
def cavPrm : Params :=
  ⟨0, 1, 1, 1 / 100, 0, 0, 0, 1 / 100, false, false, false⟩

/-- Concrete collaborators for the `dt = 0` scenario: central-difference
kernels, zero forcing, single-process halo exchanges (identity), a moving
lid (`Vx = 1` on the top wall, no-penetration elsewhere relevant), Neumann
pressure walls, and a multigrid collaborator returning the constant field 1
(its Laplacian is 0, matching the zero right-hand side it receives exactly,
and a constant obeys homogeneous Neumann conditions). -/
def cavCollab : Collab :=
  ⟨uniDer, uniDer, uniDer, uniDer, uniDer,
   fun _ r => r,
   fun r _ => (r, 0),
   id, id,
   topDirichlet 1, topDirichlet 0, topDirichlet 0,
   fun v => ⟨topDirichlet 1 v.Vx, topDirichlet 0 v.Vy, topDirichlet 0 v.Vz⟩,
   mirrorBCs,
   fun _ => fun _ => 1⟩

/-- The all-zero initial state for the `dt = 0` scenario. -/
def cavState : TSState :=
  ⟨⟨fun _ => 0, fun _ => 0, fun _ => 0⟩, fun _ => 0, fun _ => 0, fun _ => 0,
   pvfZero, fun _ => 0, fun _ => 0, fun _ => 0, 0⟩

/-- The `dt = 0` run of the hydrodynamic `timeAdvance` on the scenario. -/
def cavRun : Except JacobiAbort TSState :=
  timeAdvanceHydro gridW coeffsW cavPrm cavCollab cavState

/-- The x-velocity at the top-wall cell `(1,1,2)` after the `dt = 0` run
(sentinel 37 if the run aborted). -/
def cavVxTop : ℚ :=
  match cavRun with
  | Except.ok s => s.V.Vx (1, 1, 2)
  | Except.error _ => 37

/-- The pressure at the core cell `(1,1,1)` after the `dt = 0` run
(sentinel 37 if the run aborted). -/
def cavPMid : ℚ :=
  match cavRun with
  | Except.ok s => s.P (1, 1, 1)
  | Except.error _ => 37

theorem qAbs_eq_abs (x : ℚ) : qAbs x = |x| := by
  unfold qAbs
  rcases lt_or_le x 0 with h | h
  · rw [if_pos h, abs_of_neg h]
  · rw [if_neg (not_lt.mpr h), abs_of_nonneg h]

theorem mem_zRange {a b x : ℤ} : x ∈ zRange a b ↔ a ≤ x ∧ x ≤ b := by
  unfold zRange
  constructor
  · intro hx
    obtain ⟨n, hn, he⟩ := List.mem_map.mp hx
    rw [List.mem_range] at hn
    omega
  · intro hx
    refine List.mem_map.mpr ⟨(x - a).toNat, List.mem_range.mpr (by omega), by omega⟩

theorem mem_coreList {g : Grid} {p : Pt} : p ∈ coreList g ↔ inCore g p := by
  obtain ⟨i, j, k⟩ := p
  unfold coreList inCore
  simp only [List.mem_flatMap, List.mem_map, mem_zRange, Prod.mk.injEq]
  constructor
  · rintro ⟨a, ha, b, hb, c, hc, rfl, rfl, rfl⟩
    exact ⟨ha.1, ha.2, hb.1, hb.2, hc.1, hc.2⟩
  · rintro ⟨h1, h2, h3, h4, h5, h6⟩
    exact ⟨i, ⟨h1, h2⟩, j, ⟨h3, h4⟩, k, ⟨h5, h6⟩, rfl, rfl, rfl⟩

theorem foldr_max_nonneg (f : Pt → ℚ) (l : List Pt) :
    0 ≤ l.foldr (fun p m => max (f p) m) 0 := by
  induction l with
  | nil => exact le_refl 0
  | cons a t ih => exact le_max_of_le_right ih

theorem foldr_max_eq_zero {f : Pt → ℚ} {l : List Pt} (h : ∀ p ∈ l, f p = 0) :
    l.foldr (fun p m => max (f p) m) 0 = 0 := by
  induction l with
  | nil => rfl
  | cons a t ih =>
    have ha : f a = 0 := h a (List.mem_cons_self a t)
    have ht := ih fun p hp => h p (List.mem_cons_of_mem a hp)
    simp only [List.foldr_cons, ha, ht, max_self]

theorem locMax_nonneg (R : RankCtx) (s : SweepSt) : 0 ≤ locMax R s :=
  foldr_max_nonneg _ _

theorem gloMax_nonneg (W : World) : 0 ≤ gloMax W := by
  unfold gloMax
  induction W with
  | nil => exact le_refl 0
  | cons a t ih => exact le_max_of_le_right ih

theorem locMax_eq_zero {R : RankCtx} {s : SweepSt}
    (h : ∀ p, inCore R.g p → s.temp p = 0) : locMax R s = 0 :=
  foldr_max_eq_zero fun p hp => h p (mem_coreList.mp hp)

theorem ranksOf_sweepWorld (alpha dt : ℚ) (W : World) :
    ranksOf (sweepWorld alpha dt W) = ranksOf W := by
  unfold ranksOf sweepWorld
  rw [List.map_map]
  rfl

theorem iterWorld_one (alpha dt : ℚ) (W : World) :
    iterWorld alpha dt 1 W = sweepWorld alpha dt W := rfl

theorem iterWorld_shift (alpha dt : ℚ) (n : ℕ) (W : World) :
    iterWorld alpha dt n (sweepWorld alpha dt W) = iterWorld alpha dt (n + 1) W := rfl

theorem jacobiRun_ok_of_lt {alpha dt tol : ℚ} {name : String} {fuel : ℕ}
    {W : World} {count : ℕ} (h : gloMax (sweepWorld alpha dt W) < tol) :
    jacobiRun alpha dt tol name fuel W count =
      (Except.ok (sweepWorld alpha dt W), count + 1) := by
  cases fuel with
  | zero => simp only [jacobiRun, if_pos h]
  | succ n => simp only [jacobiRun, if_pos h]

theorem jacobiRun_zero_not_lt {alpha dt tol : ℚ} {name : String} {W : World}
    {count : ℕ} (h : ¬ gloMax (sweepWorld alpha dt W) < tol) :
    jacobiRun alpha dt tol name 0 W count =
      (Except.error (abortOf name (sweepWorld alpha dt W)), count + 1) := by
  simp only [jacobiRun, if_neg h]

theorem jacobiRun_succ_not_lt {alpha dt tol : ℚ} {name : String} {n : ℕ}
    {W : World} {count : ℕ} (h : ¬ gloMax (sweepWorld alpha dt W) < tol) :
    jacobiRun alpha dt tol name (n + 1) W count =
      jacobiRun alpha dt tol name n (sweepWorld alpha dt W) (count + 1) := by
  simp only [jacobiRun, if_neg h]

theorem jacobiRun_tol_nonpos {alpha dt tol : ℚ} {name : String}
    (htol : tol ≤ 0) : ∀ (fuel : ℕ) (W : World) (count : ℕ),
    runIsOk (jacobiRun alpha dt tol name fuel W count).1 = false ∧
      (jacobiRun alpha dt tol name fuel W count).2 = count + fuel + 1 := by
  intro fuel
  induction fuel with
  | zero =>
    intro W count
    have hng : ¬ gloMax (sweepWorld alpha dt W) < tol :=
      not_lt.mpr (le_trans htol (gloMax_nonneg _))
    rw [jacobiRun_zero_not_lt hng]
    exact ⟨rfl, rfl⟩
  | succ n ih =>
    intro W count
    have hng : ¬ gloMax (sweepWorld alpha dt W) < tol :=
      not_lt.mpr (le_trans htol (gloMax_nonneg _))
    rw [jacobiRun_succ_not_lt hng]
    refine ⟨(ih (sweepWorld alpha dt W) (count + 1)).1, ?_⟩
    have h2 := (ih (sweepWorld alpha dt W) (count + 1)).2
    omega

theorem jacobiCandidate_dt_zero (g : Grid) (c : Coeffs) (alpha : ℚ)
    (phi rhs : Fld) (p : Pt) : jacobiCandidate g c alpha 0 phi rhs p = rhs p := by
  unfold jacobiCandidate
  simp only [mul_zero, zero_mul, zero_div, zero_add, add_zero, div_one]

theorem residCode_dt_zero (g : Grid) (c : Coeffs) (alpha : ℚ)
    (phi : Fld) (p : Pt) : residCode g c alpha 0 phi p = phi p := by
  unfold residCode
  simp only [mul_zero, zero_mul, sub_zero]

theorem jacobiSweep_dt_zero_phi {R : RankCtx} {alpha : ℚ} {s : SweepSt}
    (hbc : ∀ f p, inCore R.g p → R.bc f p = f p) :
    ∀ p, inCore R.g p → (jacobiSweep R alpha 0 s).phi p = R.rhs p := by
  intro p hp
  show R.bc (sweepCopy R alpha 0 s) p = R.rhs p
  rw [hbc _ p hp]
  unfold sweepCopy
  rw [if_pos hp]
  exact jacobiCandidate_dt_zero _ _ _ _ _ _

theorem jacobiSweep_dt_zero_temp {R : RankCtx} {alpha : ℚ} {s : SweepSt}
    (hbc : ∀ f p, inCore R.g p → R.bc f p = f p) :
    ∀ p, inCore R.g p → (jacobiSweep R alpha 0 s).temp p = 0 := by
  intro p hp
  show (if inCore R.g p then
      qAbs (residCode R.g R.c alpha 0 (R.bc (sweepCopy R alpha 0 s)) p -
        R.rhs p) else sweepCopy R alpha 0 s p) = 0
  rw [if_pos hp, residCode_dt_zero]
  rw [show R.bc (sweepCopy R alpha 0 s) p = R.rhs p from
    jacobiSweep_dt_zero_phi hbc p hp]
  simp [qAbs]

theorem solveComp_dt_zero {g : Grid} {c : Coeffs} {bc : Fld → Fld}
    {alpha dt tol : ℚ} {name : String} {fuel : ℕ} {phi temp rhs : Fld}
    (hdt : dt = 0) (htol : 0 < tol)
    (hbc : ∀ f p, inCore g p → bc f p = f p) :
    ∃ q : Fld × Fld,
      solveComp g c bc alpha dt tol name fuel phi temp rhs = Except.ok q ∧
        ∀ p, inCore g p → q.1 p = rhs p := by
  subst hdt
  have hR : (⟨g, c, 0, bc, rhs⟩ : RankCtx).g = g := rfl
  have htempz : ∀ p, inCore g p →
      (jacobiSweep ⟨g, c, 0, bc, rhs⟩ alpha 0 ⟨phi, temp⟩).temp p = 0 :=
    @jacobiSweep_dt_zero_temp ⟨g, c, 0, bc, rhs⟩ alpha ⟨phi, temp⟩ hbc
  have hloc : locMax ⟨g, c, 0, bc, rhs⟩
      (jacobiSweep ⟨g, c, 0, bc, rhs⟩ alpha 0 ⟨phi, temp⟩) = 0 :=
    locMax_eq_zero htempz
  have hglo : gloMax (sweepWorld alpha 0 [(⟨g, c, 0, bc, rhs⟩, ⟨phi, temp⟩)]) = 0 := by
    unfold sweepWorld gloMax
    simp only [List.map_cons, List.map_nil, List.foldr_cons, List.foldr_nil]
    rw [hloc, max_self]
  have hlt : gloMax (sweepWorld alpha 0 [(⟨g, c, 0, bc, rhs⟩, ⟨phi, temp⟩)]) < tol := by
    rw [hglo]
    exact htol
  have hrun := @jacobiRun_ok_of_lt alpha 0 tol name fuel
    [(⟨g, c, 0, bc, rhs⟩, ⟨phi, temp⟩)] 0 hlt
  refine ⟨((jacobiSweep ⟨g, c, 0, bc, rhs⟩ alpha 0 ⟨phi, temp⟩).phi,
    (jacobiSweep ⟨g, c, 0, bc, rhs⟩ alpha 0 ⟨phi, temp⟩).temp), ?_, ?_⟩
  · unfold solveComp
    rw [hrun]
    simp only [sweepWorld, List.map_cons, List.map_nil]
  · exact @jacobiSweep_dt_zero_phi ⟨g, c, 0, bc, rhs⟩ alpha ⟨phi, temp⟩ hbc

theorem fieldMaxLocal_scale (a : ℚ) (dom : List Pt) (f : Fld) :
    fieldMaxLocal dom (fun p => a * f p) = |a| * fieldMaxLocal dom f := by
  unfold fieldMaxLocal
  induction dom with
  | nil => simp
  | cons q t ih =>
    simp only [List.foldr_cons, ih]
    rw [qAbs_eq_abs, qAbs_eq_abs, abs_mul, mul_max_of_nonneg _ _ (abs_nonneg a)]

/-- Claim C1: each Jacobi sweep of `solveVx`, `solveVy`, `solveVz`, `solveT`
(all four are instances of `jacobiSweep`, with diffusion coefficient
`alpha ∈ {nu, nu, nu, kappa}` and the component's wall-BC imposition as `R.bc`)
computes, at every core cell, the candidate
`phi* = (S·(α dt/2) + rhs) / (1 + α dt (xix2·ihx2 + ety2·ihy2 + ztz2·ihz2))`
where `S` is the neighbour-sum part of the discrete Laplacian; copies the
candidates into the field and imposes the component's wall boundary
conditions; computes the per-cell residual
`r = phi − (α dt/2)·L(phi) − rhs` on the core; and the loop compares the
maximum of `|r|`, reduced across ranks by `gloMax`, against `cnTolerance`,
exiting exactly on that comparison. -/
theorem C1_jacobi_sweep_follows_spec (R : RankCtx) (alpha dt tol : ℚ)
    (name : String) (s : SweepSt) (W : World) (fuel count : ℕ) :
    (∀ p, inCore R.g p →
      sweepCopy R alpha dt s p = specCandidate R.g R.c alpha dt s.phi R.rhs p) ∧
    (jacobiSweep R alpha dt s).phi = R.bc (sweepCopy R alpha dt s) ∧
    (∀ p, inCore R.g p →
      (jacobiSweep R alpha dt s).temp p =
        |specResidual R.g R.c alpha dt ((jacobiSweep R alpha dt s).phi)
          R.rhs p|) ∧
    (gloMax (sweepWorld alpha dt W) < tol →
      (jacobiRun alpha dt tol name fuel W count).1 =
        Except.ok (sweepWorld alpha dt W)) := by
  refine ⟨?_, rfl, ?_, ?_⟩
  · intro p hp
    unfold sweepCopy
    rw [if_pos hp]
    unfold jacobiCandidate specCandidate
    have hnum : nborSumCode R.g R.c s.phi p * dt * alpha / 2 + R.rhs p =
        specNeighborSum R.g R.c s.phi p * (alpha * dt / 2) + R.rhs p := by
      unfold nborSumCode specNeighborSum lapCode
      ring
    have hden : 1 + dt * alpha * diagTerm R.g R.c p =
        1 + alpha * dt * (R.g.xix2 p.1 * R.c.ihx2 + R.g.ety2 p.2.1 * R.c.ihy2 +
          R.g.ztz2 p.2.2 * R.c.ihz2) := by
      unfold diagTerm
      ring
    rw [hnum, hden]
  · intro p hp
    show (if inCore R.g p then
        qAbs (residCode R.g R.c alpha dt (R.bc (sweepCopy R alpha dt s)) p -
          R.rhs p)
      else sweepCopy R alpha dt s p) = _
    rw [if_pos hp, qAbs_eq_abs]
    have hphi : (jacobiSweep R alpha dt s).phi = R.bc (sweepCopy R alpha dt s) :=
      rfl
    rw [hphi]
    congr 1
    unfold residCode specResidual
    ring
  · intro h
    rw [@jacobiRun_ok_of_lt alpha dt tol name fuel W count h]

/-- Witness for C1 at the concrete single-cell rank context, projecting the
candidate-formula conjunct at the core cell `(1,1,1)`. -/
theorem C1_jacobi_sweep_follows_spec_witness :
    inCore rankW.g (1, 1, 1) ∧
      sweepCopy rankW 1 0 stateW (1, 1, 1) =
        specCandidate rankW.g rankW.c 1 0 stateW.phi rankW.rhs (1, 1, 1) :=
  ⟨by decide,
    (C1_jacobi_sweep_follows_spec rankW 1 0 (1 / 100) ("Vx") stateW worldW
      0 0).1 (1, 1, 1) (by decide)⟩

/-- Claim C5: for every scalar field and configuration, `sfield::imposeBCs`
first performs `syncData`, then invokes the left/right face BC objects
exactly when the x axis is not periodic and the front/back objects exactly
when the y axis is not periodic (non-planar build), and always invokes the
top and bottom objects, regardless of the z periodicity flag. -/
theorem C5_imposeBCs_sync_then_walls (xPer yPer zPer : Bool) (B : SfieldBCs)
    (f : Fld) :
    ((sfImposeBCs xPer yPer zPer B f).2.head? = some BCEvent.sync) ∧
    (BCEvent.lft ∈ (sfImposeBCs xPer yPer zPer B f).2 ↔ xPer = false) ∧
    (BCEvent.rgt ∈ (sfImposeBCs xPer yPer zPer B f).2 ↔ xPer = false) ∧
    (BCEvent.frn ∈ (sfImposeBCs xPer yPer zPer B f).2 ↔ yPer = false) ∧
    (BCEvent.bak ∈ (sfImposeBCs xPer yPer zPer B f).2 ↔ yPer = false) ∧
    (BCEvent.top ∈ (sfImposeBCs xPer yPer zPer B f).2) ∧
    (BCEvent.bot ∈ (sfImposeBCs xPer yPer zPer B f).2) ∧
    (∀ zPer2, (sfImposeBCs xPer yPer zPer2 B f).2 =
      (sfImposeBCs xPer yPer zPer B f).2) := by
  cases xPer <;> cases yPer <;> simp [sfImposeBCs]

/-- Claim C7: scaling a (distributed) field by `a` scales `fieldMax` by
`|a|`: the global maximum of absolute values is absolutely homogeneous. -/
theorem C7_fieldMax_abs_homogeneous (a : ℚ) (ranks : List (List Pt × Fld)) :
    fieldMax (fieldScale a ranks) = |a| * fieldMax ranks := by
  unfold fieldMax fieldScale
  induction ranks with
  | nil => simp
  | cons r t ih =>
    simp only [List.map_cons, List.foldr_cons, ih]
    rw [fieldMaxLocal_scale, mul_max_of_nonneg _ _ (abs_nonneg a)]

/-- Claim C10: `sfield::computeDiff`, `sfield::computeNLin` and
`sfield::gradient` write only the core cells of their output argument; every
non-core (pad/ghost) cell keeps its previous value, and on the core the
first two accumulate while `gradient` assigns. -/
theorem C10_sfield_ops_frame (g : Grid) (D : DerOps) (F H : Fld) (V : VecF)
    (gradF : VecF) :
    (∀ p, ¬ inCore g p →
      sfComputeDiff g D F H p = H p ∧
      sfComputeNLin g D F V H p = H p ∧
      (sfGradient g D F gradF).Vx p = gradF.Vx p ∧
      (sfGradient g D F gradF).Vy p = gradF.Vy p ∧
      (sfGradient g D F gradF).Vz p = gradF.Vz p) ∧
    (∀ p, inCore g p →
      sfComputeDiff g D F H p = H p + D.d2xx F p + D.d2yy F p + D.d2zz F p ∧
      sfComputeNLin g D F V H p =
        H p - V.Vx p * D.d1x F p - V.Vy p * D.d1y F p - V.Vz p * D.d1z F p ∧
      (sfGradient g D F gradF).Vx p = D.d1x F p ∧
      (sfGradient g D F gradF).Vy p = D.d1y F p ∧
      (sfGradient g D F gradF).Vz p = D.d1z F p) := by
  constructor <;> intro p hp <;>
    refine ⟨?_, ?_, ?_, ?_, ?_⟩ <;>
      simp [sfComputeDiff, sfComputeNLin, sfGradient, hp]

/-- Witness for C10 at a pad cell of the concrete grid. -/
theorem C10_sfield_ops_frame_witness :
    ¬ inCore gridW (0, 0, 0) ∧
      sfComputeDiff gridW uniDer (fun _ => 3) (fun _ => 5) (0, 0, 0) =
        (fun _ => (5 : ℚ)) (0, 0, 0) :=
  ⟨by decide,
    ((C10_sfield_ops_frame gridW uniDer (fun _ => 3) (fun _ => 5) pvfZero
      pvfZero).1 (0, 0, 0) (by decide)).1⟩

/-- Claim C2: for every solve, the Jacobi loop exits normally exactly when
the globally reduced maximum residual falls below `cnTolerance`; a normal
exit always has residual below the tolerance, the loop aborts exactly when
the reduced residual of no sweep within the cap is below the tolerance, and
on abort a message is printed once per process whose rank is 0 (a single
message when exactly one process has rank 0) and the program terminates
(`MPI_Finalize(); exit(0)`). -/
theorem C2_jacobi_exit_iff_and_abort (alpha dt tol : ℚ) (name : String) :
    ∀ (fuel : ℕ) (W : World) (count : ℕ),
      (∀ W2, (jacobiRun alpha dt tol name fuel W count).1 = Except.ok W2 →
        gloMax W2 < tol) ∧
      (gloMax (sweepWorld alpha dt W) < tol →
        (jacobiRun alpha dt tol name fuel W count).1 =
          Except.ok (sweepWorld alpha dt W)) ∧
      (runIsOk (jacobiRun alpha dt tol name fuel W count).1 = false ↔
        ∀ n, 1 ≤ n → n ≤ fuel + 1 →
          ¬ gloMax (iterWorld alpha dt n W) < tol) ∧
      (runIsOk (jacobiRun alpha dt tol name fuel W count).1 = false →
        runMessages (jacobiRun alpha dt tol name fuel W count).1 =
          ((ranksOf W).filter fun r => r == 0).map
            (fun _ => jacobiErrMsg name) ∧
        runExitCode (jacobiRun alpha dt tol name fuel W count).1 = some 0) ∧
      (((ranksOf W).filter fun r => r == 0) = [0] →
        runIsOk (jacobiRun alpha dt tol name fuel W count).1 = false →
        runMessages (jacobiRun alpha dt tol name fuel W count).1 =
          [jacobiErrMsg name]) := by
  intro fuel
  induction fuel with
  | zero =>
    intro W count
    by_cases hc : gloMax (sweepWorld alpha dt W) < tol
    · rw [@jacobiRun_ok_of_lt alpha dt tol name 0 W count hc]
      refine ⟨?_, fun _ => rfl, ?_, ?_, ?_⟩
      · intro W2 h2
        rw [← Except.ok.inj h2]
        exact hc
      · constructor
        · intro h
          simp [runIsOk] at h
        · intro h
          exact absurd hc (h 1 (by omega) (by omega))
      · intro h
        simp [runIsOk] at h
      · intro _ h
        simp [runIsOk] at h
    · rw [@jacobiRun_zero_not_lt alpha dt tol name W count hc]
      refine ⟨?_, fun h2 => absurd h2 hc, ?_, ?_, ?_⟩
      · intro W2 h2
        exact Except.noConfusion h2
      · constructor
        · intro _ n h1 h2
          have hn : n = 1 := by omega
          subst hn
          exact hc
        · intro _
          rfl
      · intro _
        refine ⟨?_, rfl⟩
        show (abortOf name (sweepWorld alpha dt W)).messages = _
        unfold abortOf
        rw [ranksOf_sweepWorld]
      · intro hf _
        show (abortOf name (sweepWorld alpha dt W)).messages = _
        unfold abortOf
        rw [ranksOf_sweepWorld, hf]
        rfl
  | succ n ih =>
    intro W count
    by_cases hc : gloMax (sweepWorld alpha dt W) < tol
    · rw [@jacobiRun_ok_of_lt alpha dt tol name (n + 1) W count hc]
      refine ⟨?_, fun _ => rfl, ?_, ?_, ?_⟩
      · intro W2 h2
        rw [← Except.ok.inj h2]
        exact hc
      · constructor
        · intro h
          simp [runIsOk] at h
        · intro h
          exact absurd hc (h 1 (by omega) (by omega))
      · intro h
        simp [runIsOk] at h
      · intro _ h
        simp [runIsOk] at h
    · rw [@jacobiRun_succ_not_lt alpha dt tol name n W count hc]
      obtain ⟨ih1, ih2, ih3, ih4, ih5⟩ := ih (sweepWorld alpha dt W) (count + 1)
      refine ⟨ih1, fun h2 => absurd h2 hc, ?_, ?_, ?_⟩
      · rw [ih3]
        constructor
        · intro h m h1 h2
          cases m with
          | zero => omega
          | succ k =>
            cases k with
            | zero => exact hc
            | succ j => exact h (j + 1) (by omega) (by omega)
        · intro h m h1 h2
          exact h (m + 1) (by omega) (by omega)
      · intro hF
        have h4 := ih4 hF
        rw [ranksOf_sweepWorld] at h4
        exact h4
      · intro hf hF
        refine ih5 ?_ hF
        rw [ranksOf_sweepWorld]
        exact hf

/-- Witness for C2: on the concrete single-rank world with tolerance 0 and
cap 0, the loop aborts and emits exactly the documented message from
rank 0. -/
theorem C2_jacobi_exit_iff_and_abort_witness :
    runIsOk (jacobiRun 1 0 0 ("Vx") 0 worldW 0).1 = false ∧
      runMessages (jacobiRun 1 0 0 ("Vx") 0 worldW 0).1 =
        [jacobiErrMsg ("Vx")] := by
  have h := C2_jacobi_exit_iff_and_abort 1 0 0 ("Vx") 0 worldW 0
  have hfalse : runIsOk (jacobiRun 1 0 0 ("Vx") 0 worldW 0).1 = false :=
    h.2.2.1.mpr fun n h1 h2 => not_lt.mpr (gloMax_nonneg _)
  exact ⟨hfalse, h.2.2.2.2 (by decide) hfalse⟩

/-- Counterexample for C9: on the single-rank world with `maxIterations = 0`
(`fuel = 0`) and tolerance 0 (never convergent), the abort fires after
exactly 1 sweep, not after `maxIterations + 2 = 2` sweeps. -/
theorem C9_counterexample_abort_after_one_sweep :
    runIsOk (jacobiRun 1 0 0 ("Vy") 0 worldW 0).1 = false ∧
      (jacobiRun 1 0 0 ("Vy") 0 worldW 0).2 = 1 ∧
      (jacobiRun 1 0 0 ("Vy") 0 worldW 0).2 ≠ 0 + 2 := by
  have h := @jacobiRun_tol_nonpos 1 0 0 ("Vy") (le_refl 0) 0 worldW 0
  refine ⟨h.1, ?_, ?_⟩
  · rw [h.2]
  · rw [h.2]
    omega

/-- Claim C9 (amended): every solve runs at least one full sweep before its
first residual check (a normal exit returns an iterated-sweep image of the
input, with at least one sweep applied, even when the input already meets
the tolerance), the iteration counter is incremented only after a failed
check, and the abort fires only after `maxIterations + 1` sweeps have run
(`fuel = maxIterations`). -/
theorem C9_amended_sweep_counts (alpha dt tol : ℚ) (name : String) :
    ∀ (fuel : ℕ) (W : World) (count : ℕ),
      count + 1 ≤ (jacobiRun alpha dt tol name fuel W count).2 ∧
      (runIsOk (jacobiRun alpha dt tol name fuel W count).1 = false →
        (jacobiRun alpha dt tol name fuel W count).2 = count + fuel + 1) ∧
      (∀ W2, (jacobiRun alpha dt tol name fuel W count).1 = Except.ok W2 →
        W2 = iterWorld alpha dt
          ((jacobiRun alpha dt tol name fuel W count).2 - count) W) := by
  intro fuel
  induction fuel with
  | zero =>
    intro W count
    by_cases hc : gloMax (sweepWorld alpha dt W) < tol
    · rw [@jacobiRun_ok_of_lt alpha dt tol name 0 W count hc]
      refine ⟨by omega, fun h => by simp [runIsOk] at h, ?_⟩
      intro W2 h2
      have hk : count + 1 - count = 1 := by omega
      rw [hk, iterWorld_one]
      exact (Except.ok.inj h2).symm
    · rw [@jacobiRun_zero_not_lt alpha dt tol name W count hc]
      exact ⟨by omega, fun _ => by omega, fun W2 h2 => Except.noConfusion h2⟩
  | succ n ih =>
    intro W count
    by_cases hc : gloMax (sweepWorld alpha dt W) < tol
    · rw [@jacobiRun_ok_of_lt alpha dt tol name (n + 1) W count hc]
      refine ⟨by omega, fun h => by simp [runIsOk] at h, ?_⟩
      intro W2 h2
      have hk : count + 1 - count = 1 := by omega
      rw [hk, iterWorld_one]
      exact (Except.ok.inj h2).symm
    · rw [@jacobiRun_succ_not_lt alpha dt tol name n W count hc]
      obtain ⟨ih1, ih2, ih3⟩ := ih (sweepWorld alpha dt W) (count + 1)
      refine ⟨by omega, fun hF => by have := ih2 hF; omega, ?_⟩
      intro W2 h2
      have h3 := ih3 W2 h2
      have hk : (jacobiRun alpha dt tol name n (sweepWorld alpha dt W)
          (count + 1)).2 - count =
          ((jacobiRun alpha dt tol name n (sweepWorld alpha dt W)
            (count + 1)).2 - (count + 1)) + 1 := by
        omega
      rw [hk, ← iterWorld_shift]
      exact h3

/-- Witness for C9 (amended): on the concrete aborting run with `fuel = 0`,
the sweep count is `0 + 0 + 1`. -/
theorem C9_amended_sweep_counts_witness :
    (jacobiRun 1 0 0 ("Vz") 0 worldW 0).2 = 0 + 0 + 1 := by
  have hF := (@jacobiRun_tol_nonpos 1 0 0 ("Vz") (le_refl 0) 0 worldW 0).1
  exact (C9_amended_sweep_counts 1 0 0 ("Vz") 0 worldW 0).2.1 hF

theorem log8_cube_bounds :
    (8 : ℝ) < Real.log 8 ^ 3 ∧ Real.log 8 ^ 3 < 9 := by
  have h8 : (8 : ℝ) = (2 : ℝ) ^ 3 := by norm_num
  have hlog : Real.log (8 : ℝ) = 3 * Real.log 2 := by
    rw [h8, Real.log_pow]
    norm_num
  have hgt := Real.log_two_gt_d9
  have hlt := Real.log_two_lt_d9
  have hpos : (0 : ℝ) < Real.log 2 := by linarith
  constructor
  · have h1 : ((2 : ℝ) / 3) ^ 3 < Real.log 2 ^ 3 :=
      pow_lt_pow_left₀ (by linarith) (by norm_num) (by norm_num)
    rw [hlog, mul_pow]
    norm_num at h1 ⊢
    linarith
  · have h2 : Real.log 2 ^ 3 < (0.6931471808 : ℝ) ^ 3 :=
      pow_lt_pow_left₀ hlt (le_of_lt hpos) (by norm_num)
    rw [hlog, mul_pow]
    norm_num at h2 ⊢
    linarith

/-- Counterexample for C3: for local core sizes 2 × 2 × 2 the constructor's
`int(pow(log(8), 3))` truncates `(log 8)³ ≈ 8.99` to 8, while the claimed
ceiling is 9. -/
theorem C3_counterexample_not_ceiling :
    maxIterationsOf 2 2 2 ≠ ⌈Real.log ((2 * 2 * 2 : ℕ) : ℝ) ^ 3⌉ := by
  have hb := log8_cube_bounds
  have harg : ((2 * 2 * 2 : ℕ) : ℝ) = (8 : ℝ) := by norm_num
  unfold maxIterationsOf intTrunc
  rw [harg]
  have hnn : (0 : ℝ) ≤ Real.log (8 : ℝ) ^ 3 := by linarith [hb.1]
  rw [if_pos hnn]
  have hfl : ⌊Real.log (8 : ℝ) ^ 3⌋ = 8 := by
    rw [Int.floor_eq_iff]
    constructor
    · push_cast
      linarith [hb.1]
    · push_cast
      linarith [hb.2]
  have hcl : ⌈Real.log (8 : ℝ) ^ 3⌉ = 9 := by
    rw [Int.ceil_eq_iff]
    constructor
    · push_cast
      linarith [hb.1]
    · push_cast
      linarith [hb.2]
  rw [hfl, hcl]
  decide

/-- Claim C3 (amended): at construction, `maxIterations` is set to the
integer truncation — the floor, since the value is non-negative — of
`(log(Nx·Ny·Nz))³` over the core sizes of the local sub-domain, not its
ceiling. -/
theorem C3_amended_floor_of_log_cubed (Nx Ny Nz : ℕ) :
    maxIterationsOf Nx Ny Nz = ⌊Real.log ((Nx * Ny * Nz : ℕ) : ℝ) ^ 3⌋ := by
  unfold maxIterationsOf intTrunc
  have h : (0 : ℝ) ≤ Real.log ((Nx * Ny * Nz : ℕ) : ℝ) ^ 3 :=
    pow_nonneg (Real.log_natCast_nonneg _) 3
  rw [if_pos h]

/-- Claim C4: in both `timeAdvance` variants (the LES blocks embedded as
`lesStepHydro` and `lesStepScalar`), with `lesModel` in its documented range
`{0,1,2}`, `computeSG` is invoked iff `lesModel` is non-zero and the solution
time strictly exceeds `5·tStp`; when the time is at most `5·tStp` the call is
suppressed and `tsWriter.subgridEnergy` is untouched; when invoked, the
returned sub-grid kinetic energy is stored in `tsWriter.subgridEnergy`. -/
theorem C4_les_guard_and_energy (les : ℕ) (hles : les ≤ 2) (t tStp : ℚ)
    (csg : VecF → VecF → VecF × ℚ)
    (csg2 : VecF → Fld → VecF → Fld → VecF × Fld × ℚ)
    (nseRHS : VecF) (tmpRHS : Fld) (V : VecF) (T : Fld) (subE : ℚ) :
    ((lesStepHydro les t tStp csg nseRHS V subE).2.2 ≠ LESCall.none ↔
      les ≠ 0 ∧ 5 * tStp < t) ∧
    (les ≠ 0 → 5 * tStp < t →
      (lesStepHydro les t tStp csg nseRHS V subE).2.1 = (csg nseRHS V).2) ∧
    (t ≤ 5 * tStp →
      (lesStepHydro les t tStp csg nseRHS V subE).2.2 = LESCall.none ∧
      (lesStepHydro les t tStp csg nseRHS V subE).2.1 = subE) ∧
    ((lesStepScalar les t tStp csg csg2 nseRHS tmpRHS V T subE).call ≠
        LESCall.none ↔ les ≠ 0 ∧ 5 * tStp < t) ∧
    (les = 1 → 5 * tStp < t →
      (lesStepScalar les t tStp csg csg2 nseRHS tmpRHS V T subE).energy =
        (csg nseRHS V).2) ∧
    (les = 2 → 5 * tStp < t →
      (lesStepScalar les t tStp csg csg2 nseRHS tmpRHS V T subE).energy =
        (csg2 nseRHS tmpRHS V T).2.2) ∧
    (t ≤ 5 * tStp →
      (lesStepScalar les t tStp csg csg2 nseRHS tmpRHS V T subE).call =
        LESCall.none ∧
      (lesStepScalar les t tStp csg csg2 nseRHS tmpRHS V T subE).energy =
        subE) := by
  by_cases ht : 5 * tStp < t
  · have hnle : ¬ t ≤ 5 * tStp := not_le.mpr ht
    interval_cases les <;>
      simp [lesStepHydro, lesStepScalar, ht, hnle]
  · have hle : t ≤ 5 * tStp := not_lt.mp ht
    interval_cases les <;>
      simp [lesStepHydro, lesStepScalar, ht, hle]

/-- Witness for C4: with `lesModel = 1`, `tStp = 0` and solution time 1, the
hydrodynamic LES block performs a call. -/
theorem C4_les_guard_and_energy_witness :
    (1 : ℕ) ≤ 2 ∧
      (lesStepHydro 1 1 0 (fun r _ => (r, 5)) pvfZero pvfZero 0).2.2 ≠
        LESCall.none := by
  have h := C4_les_guard_and_energy 1 (by norm_num) 1 0 (fun r _ => (r, 5))
    (fun r tf _ _ => (r, tf, 7)) pvfZero (fun _ => 0) pvfZero (fun _ => 0) 0
  exact ⟨by norm_num, h.1.mpr ⟨by norm_num, by norm_num⟩⟩

/-- Claim C8: in the scalar-variant LES block, `tmpRHS` is forwarded to the
sub-grid model iff `lesModel = 2`; with `lesModel = 1` the model receives
only `nseRHS` and `V`; with `lesModel = 0` no call occurs. -/
theorem C8_scalar_les_forwarding (les : ℕ) (t tStp : ℚ)
    (csg : VecF → VecF → VecF × ℚ)
    (csg2 : VecF → Fld → VecF → Fld → VecF × Fld × ℚ)
    (nseRHS : VecF) (tmpRHS : Fld) (V : VecF) (T : Fld) (subE : ℚ) :
    (∀ r tf v tt,
      (lesStepScalar les t tStp csg csg2 nseRHS tmpRHS V T subE).call =
        LESCall.scal r tf v tt → les = 2) ∧
    (les = 2 → 5 * tStp < t →
      (lesStepScalar les t tStp csg csg2 nseRHS tmpRHS V T subE).call =
        LESCall.scal nseRHS tmpRHS V T) ∧
    (les = 1 → 5 * tStp < t →
      (lesStepScalar les t tStp csg csg2 nseRHS tmpRHS V T subE).call =
        LESCall.mom nseRHS V) ∧
    (les = 0 →
      (lesStepScalar les t tStp csg csg2 nseRHS tmpRHS V T subE).call =
        LESCall.none) := by
  refine ⟨?_, ?_, ?_, ?_⟩
  · intro r tf v tt h
    unfold lesStepScalar at h
    by_cases hg : les ≠ 0 ∧ 5 * tStp < t
    · rw [if_pos hg] at h
      by_cases h1 : les = 1
      · rw [if_pos h1] at h
        exact absurd h (by simp)
      · rw [if_neg h1] at h
        by_cases h2 : les = 2
        · exact h2
        · rw [if_neg h2] at h
          exact absurd h (by simp)
    · rw [if_neg hg] at h
      exact absurd h (by simp)
  · intro h2 ht
    subst h2
    simp [lesStepScalar, ht]
  · intro h1 ht
    subst h1
    simp [lesStepScalar, ht]
  · intro h0
    subst h0
    simp [lesStepScalar]

/-- Witness for C8: with `lesModel = 2` and the guard satisfied, the
scalar-aware call receives `nseRHS`, `tmpRHS`, `V` and `T`. -/
theorem C8_scalar_les_forwarding_witness :
    5 * (0 : ℚ) < 1 ∧
      (lesStepScalar 2 1 0 (fun r _ => (r, 5)) (fun r tf _ _ => (r, tf, 7))
        pvfZero (fun _ => 0) pvfZero (fun _ => 0) 0).call =
        LESCall.scal pvfZero (fun _ => 0) pvfZero (fun _ => 0) :=
  ⟨by norm_num,
    (C8_scalar_les_forwarding 2 1 0 (fun r _ => (r, 5))
      (fun r tf _ _ => (r, tf, 7)) pvfZero (fun _ => 0) pvfZero (fun _ => 0)
      0).2.1 rfl (by norm_num)⟩

theorem hydroRHS_core_dt_zero {g : Grid} {prm : Params} {C : Collab}
    {st : TSState} (hdt : prm.dt = 0)
    (hsync : ∀ v : VecF, ∀ p, inCore g p →
      (C.syncVF v).Vx p = v.Vx p ∧ (C.syncVF v).Vy p = v.Vy p ∧
        (C.syncVF v).Vz p = v.Vz p) :
    ∀ p, inCore g p →
      (hydroRHS g prm C st).1.Vx p = st.V.Vx p ∧
      (hydroRHS g prm C st).1.Vy p = st.V.Vy p ∧
      (hydroRHS g prm C st).1.Vz p = st.V.Vz p := by
  have key : ∀ w : VecF, ∀ p, inCore g p →
      (C.syncVF (pvfAdd (pvfScale prm.dt w) st.V)).Vx p = st.V.Vx p ∧
      (C.syncVF (pvfAdd (pvfScale prm.dt w) st.V)).Vy p = st.V.Vy p ∧
      (C.syncVF (pvfAdd (pvfScale prm.dt w) st.V)).Vz p = st.V.Vz p := by
    intro w p hp
    obtain ⟨h1, h2, h3⟩ := hsync (pvfAdd (pvfScale prm.dt w) st.V) p hp
    refine ⟨?_, ?_, ?_⟩
    · rw [h1]
      simp [pvfAdd, pvfScale, hdt]
    · rw [h2]
      simp [pvfAdd, pvfScale, hdt]
    · rw [h3]
      simp [pvfAdd, pvfScale, hdt]
  intro p hp
  exact key _ p hp

theorem hydroFinish_core_V {g : Grid} {prm : Params} {C : Collab}
    {st : TSState} {V1 : VecF} {tVx tVy tVz : Fld} {ke : ℚ}
    (hdt : prm.dt = 0)
    (himp : ∀ v : VecF, ∀ p, inCore g p →
      (C.imposeVBCs v).Vx p = v.Vx p ∧ (C.imposeVBCs v).Vy p = v.Vy p ∧
        (C.imposeVBCs v).Vz p = v.Vz p) :
    ∀ p, inCore g p →
      (hydroFinish g prm C st V1 tVx tVy tVz ke).V.Vx p = V1.Vx p ∧
      (hydroFinish g prm C st V1 tVx tVy tVz ke).V.Vy p = V1.Vy p ∧
      (hydroFinish g prm C st V1 tVx tVy tVz ke).V.Vz p = V1.Vz p := by
  have key : ∀ w : VecF, ∀ p, inCore g p →
      (C.imposeVBCs (pvfSub V1 (pvfScale prm.dt w))).Vx p = V1.Vx p ∧
      (C.imposeVBCs (pvfSub V1 (pvfScale prm.dt w))).Vy p = V1.Vy p ∧
      (C.imposeVBCs (pvfSub V1 (pvfScale prm.dt w))).Vz p = V1.Vz p := by
    intro w p hp
    obtain ⟨h1, h2, h3⟩ := himp (pvfSub V1 (pvfScale prm.dt w)) p hp
    refine ⟨?_, ?_, ?_⟩
    · rw [h1]
      simp [pvfSub, pvfScale, hdt]
    · rw [h2]
      simp [pvfSub, pvfScale, hdt]
    · rw [h3]
      simp [pvfSub, pvfScale, hdt]
  intro p hp
  exact key _ p hp

/-- Claim C6 (amended): calling the hydrodynamic `timeAdvance` with
`dt = 0` (and a positive tolerance, with halo exchange, per-component wall
BC imposition and final velocity BC imposition all writing only outside the
core, as the spec requires of them) completes without abort and leaves the
core cells of all three velocity components unchanged.  The fields are not
unchanged in full: the wall slices of `V` are rewritten by the final BC
imposition, and `P` is shifted by the multigrid output (the Poisson
right-hand side involves a division by `dt`), as the counterexample shows. -/
theorem C6_amended_dt_zero_core_velocity (g : Grid) (c : Coeffs)
    (prm : Params) (C : Collab) (st : TSState)
    (hdt : prm.dt = 0) (htol : 0 < prm.cnTolerance)
    (hsync : ∀ v : VecF, ∀ p, inCore g p →
      (C.syncVF v).Vx p = v.Vx p ∧ (C.syncVF v).Vy p = v.Vy p ∧
        (C.syncVF v).Vz p = v.Vz p)
    (hbcx : ∀ f p, inCore g p → C.bcVx f p = f p)
    (hbcy : ∀ f p, inCore g p → C.bcVy f p = f p)
    (hbcz : ∀ f p, inCore g p → C.bcVz f p = f p)
    (himp : ∀ v : VecF, ∀ p, inCore g p →
      (C.imposeVBCs v).Vx p = v.Vx p ∧ (C.imposeVBCs v).Vy p = v.Vy p ∧
        (C.imposeVBCs v).Vz p = v.Vz p) :
    ∃ s2, timeAdvanceHydro g c prm C st = Except.ok s2 ∧
      ∀ p, inCore g p → s2.V.Vx p = st.V.Vx p ∧ s2.V.Vy p = st.V.Vy p ∧
        s2.V.Vz p = st.V.Vz p := by
  obtain ⟨qx, hqx, hqx1⟩ := @solveComp_dt_zero g c C.bcVx prm.nu prm.dt
    prm.cnTolerance ("Vx") prm.maxIterations st.V.Vx st.tempVx
    ((hydroRHS g prm C st).1.Vx) hdt htol hbcx
  obtain ⟨qy, hqy, hqy1⟩ := @solveComp_dt_zero g c C.bcVy prm.nu prm.dt
    prm.cnTolerance ("Vy") prm.maxIterations st.V.Vy st.tempVy
    ((hydroRHS g prm C st).1.Vy) hdt htol hbcy
  obtain ⟨qz, hqz, hqz1⟩ := @solveComp_dt_zero g c C.bcVz prm.nu prm.dt
    prm.cnTolerance ("Vz") prm.maxIterations st.V.Vz st.tempVz
    ((hydroRHS g prm C st).1.Vz) hdt htol hbcz
  have hta : timeAdvanceHydro g c prm C st = Except.ok
      (hydroFinish g prm C st ⟨qx.1, qy.1, qz.1⟩ qx.2 qy.2 qz.2
        (hydroRHS g prm C st).2) := by
    unfold timeAdvanceHydro
    simp only [solveVx, solveVy, solveVz]
    rw [hqx, hqy, hqz]
  refine ⟨_, hta, ?_⟩
  intro p hp
  have hrhs := @hydroRHS_core_dt_zero g prm C st hdt hsync p hp
  have hfin := @hydroFinish_core_V g prm C st ⟨qx.1, qy.1, qz.1⟩ qx.2 qy.2
    qz.2 ((hydroRHS g prm C st).2) hdt himp p hp
  refine ⟨?_, ?_, ?_⟩
  · rw [hfin.1]
    show qx.1 p = st.V.Vx p
    rw [hqx1 p hp]
    exact hrhs.1
  · rw [hfin.2.1]
    show qy.1 p = st.V.Vy p
    rw [hqy1 p hp]
    exact hrhs.2.1
  · rw [hfin.2.2]
    show qz.1 p = st.V.Vz p
    rw [hqz1 p hp]
    exact hrhs.2.2

theorem topDirichlet_core (v : ℚ) (f : Fld) (p : Pt) (hp : inCore gridW p) :
    topDirichlet v f p = f p := by
  simp only [inCore, gridW] at hp
  unfold topDirichlet
  rw [if_neg (by omega)]

/-- Witness for C6 (amended): the concrete `dt = 0` cavity scenario
completes and keeps the core velocity values. -/
theorem C6_amended_dt_zero_core_velocity_witness :
    ∃ s2, timeAdvanceHydro gridW coeffsW cavPrm cavCollab cavState =
        Except.ok s2 ∧
      ∀ p, inCore gridW p → s2.V.Vx p = cavState.V.Vx p ∧
        s2.V.Vy p = cavState.V.Vy p ∧ s2.V.Vz p = cavState.V.Vz p :=
  C6_amended_dt_zero_core_velocity gridW coeffsW cavPrm cavCollab cavState
    rfl (by norm_num [cavPrm])
    (fun v p hp => ⟨rfl, rfl, rfl⟩)
    (fun f p hp => topDirichlet_core 1 f p hp)
    (fun f p hp => topDirichlet_core 0 f p hp)
    (fun f p hp => topDirichlet_core 0 f p hp)
    (fun v p hp => ⟨topDirichlet_core 1 _ p hp, topDirichlet_core 0 _ p hp,
      topDirichlet_core 0 _ p hp⟩)

/-- Counterexample for C6: on the concrete scenario with `dt = 0` and an
all-zero initial state, `timeAdvance` changes the x-velocity at the top wall
slice `(1,1,2)` from 0 to 1 (the lid BC imposed at the end of the step) and
the pressure at the core cell `(1,1,1)` from 0 to 1 (`P += Pp` adds the
multigrid output, which for the zero right-hand side produced by the
`dt = 0` division is determined only up to its contract and here is the
constant 1).  So `V, P` are not left unchanged. -/
theorem C6_counterexample_dt_zero_changes_fields :
    cavPrm.dt = 0 ∧ cavState.V.Vx (1, 1, 2) = 0 ∧ cavState.P (1, 1, 1) = 0 ∧
      cavVxTop = 1 ∧ cavPMid = 1 := by
  obtain ⟨qx, hqx, _⟩ := @solveComp_dt_zero gridW coeffsW cavCollab.bcVx
    cavPrm.nu cavPrm.dt cavPrm.cnTolerance ("Vx") cavPrm.maxIterations
    cavState.V.Vx cavState.tempVx
    ((hydroRHS gridW cavPrm cavCollab cavState).1.Vx)
    rfl (by norm_num [cavPrm]) (fun f p hp => topDirichlet_core 1 f p hp)
  obtain ⟨qy, hqy, _⟩ := @solveComp_dt_zero gridW coeffsW cavCollab.bcVy
    cavPrm.nu cavPrm.dt cavPrm.cnTolerance ("Vy") cavPrm.maxIterations
    cavState.V.Vy cavState.tempVy
    ((hydroRHS gridW cavPrm cavCollab cavState).1.Vy)
    rfl (by norm_num [cavPrm]) (fun f p hp => topDirichlet_core 0 f p hp)
  obtain ⟨qz, hqz, _⟩ := @solveComp_dt_zero gridW coeffsW cavCollab.bcVz
    cavPrm.nu cavPrm.dt cavPrm.cnTolerance ("Vz") cavPrm.maxIterations
    cavState.V.Vz cavState.tempVz
    ((hydroRHS gridW cavPrm cavCollab cavState).1.Vz)
    rfl (by norm_num [cavPrm]) (fun f p hp => topDirichlet_core 0 f p hp)
  have hrun : cavRun = Except.ok
      (hydroFinish gridW cavPrm cavCollab cavState ⟨qx.1, qy.1, qz.1⟩
        qx.2 qy.2 qz.2 (hydroRHS gridW cavPrm cavCollab cavState).2) := by
    unfold cavRun timeAdvanceHydro
    simp only [solveVx, solveVy, solveVz]
    rw [hqx, hqy, hqz]
  refine ⟨rfl, rfl, rfl, ?_, ?_⟩
  · unfold cavVxTop
    rw [hrun]
    show (hydroFinish gridW cavPrm cavCollab cavState ⟨qx.1, qy.1, qz.1⟩
      qx.2 qy.2 qz.2
      (hydroRHS gridW cavPrm cavCollab cavState).2).V.Vx (1, 1, 2) = 1
    simp [hydroFinish, cavCollab, topDirichlet]
  · unfold cavPMid
    rw [hrun]
    show (hydroFinish gridW cavPrm cavCollab cavState ⟨qx.1, qy.1, qz.1⟩
      qx.2 qy.2 qz.2
      (hydroRHS gridW cavPrm cavCollab cavState).2).P (1, 1, 1) = 1
    simp [hydroFinish, cavCollab, cavPrm, cavState, sfImposeBCs, mirrorBCs]
